import Mathlib

/-!
Shallow embedding of the HTML parser of the rust-browser repository
(src/html/parser.rs and src/html/dom.rs) and proofs about it.

Rust byte strings (`String`, `&str`, `Vec<u8>`) are modeled as lists of
natural numbers, one entry per byte.  The source occasionally pushes raw
bytes into a Rust `String` via `as char`; on ASCII-range bytes that is the
identity, and the spec declares behavior on multi-byte UTF-8 content
undefined by design, so this embedding treats byte values directly.
Rust panics (out-of-bounds indexing, slice panics, `unwrap`) are modeled
explicitly by a dedicated result constructor.
-/

namespace RustBrowser

/-- Byte strings: each Rust string value is embedded as its list of bytes. -/
abbrev Str := List Nat

/-- Constant GREATER_THAN from parser.rs (the byte of the closing angle bracket). -/
def GREATER_THAN : Nat := 0x3E

/-- Constant LESS_THAN from parser.rs (the byte of the opening angle bracket). -/
def LESS_THAN : Nat := 0x3C

/-- Constant WHITESPACE from parser.rs: the ASCII space byte 0x20 only. -/
def WHITESPACE : Nat := 0x20

/-- Constant SLASH from parser.rs. -/
def SLASH : Nat := 0x2F

/-- Constant QUOTE from parser.rs (the double-quote byte). -/
def QUOTE : Nat := 0x22

/-- The byte of the equals sign, the pattern of the split in parse_attribute_section. -/
def EQUALS_SIGN : Nat := 0x3D

/-- ParserError from parser.rs.  Each variant keeps the payload the claims can
observe: the byte position and, for UnexpectedToken, the found token text
(the source also formats human-readable messages, which carry no extra
information). -/
inductive ParserError where
  | UnexpectedToken (position : Nat) (found : Str)
  | PrematureEndOfFile (position : Nat)
  | Generic (position : Nat)
  | InvalidIdentifier (identifier : Str)
  | InvalidAttributeValue (value : Str)
deriving DecidableEq

/-- Node from dom.rs: an element (tag name, attributes, ordered children) or a
text node.  ElementAttributes is a Rust HashMap; it is embedded as an
association list built exactly as the source builds the map (insert only when
the key is absent), so each key occurs at most once. -/
inductive Node where
  | Element (tag_name : Str) (attributes : List (Str × Str)) (children : List Node)
  | Text (content : Str)

/-- Result of running a piece of the Rust parser: normal return, a returned
ParserError, or a Rust panic (out-of-bounds indexing or slice/unwrap panic).
The nofuel constructor is an artifact of the fueled embedding of the recursive
tree builder; the entry point supplies more fuel than the builder can consume
(the cursor strictly advances at every recursive call), so it is never
produced by the embedded program. -/
inductive RResult (α : Type) where
  | ok : α → RResult α
  | err : ParserError → RResult α
  | panics : RResult α
  | nofuel : RResult α
deriving DecidableEq

/-- Rust str::split_once with a one-byte pattern: splits at the first
occurrence of the separator, or returns none when the separator is absent. -/
def splitOnce (sep : Nat) : Str → Option (Str × Str)
  | [] => none
  | b :: rest =>
    if b = sep then some ([], rest)
    else
      match splitOnce sep rest with
      | none => none
      | some (l, r) => some (b :: l, r)

/-- Rust str::split with a one-byte pattern: splits at every occurrence of the
separator, keeping empty pieces (the empty string yields one empty piece). -/
def splitAll (sep : Nat) : Str → List Str
  | [] => [[]]
  | b :: rest =>
    if b = sep then [] :: splitAll sep rest
    else
      match splitAll sep rest with
      | [] => [[b]]
      | p :: ps => (b :: p) :: ps

/-- Rust char::is_alphanumeric restricted to ASCII-range bytes: decimal digits
and upper/lower case letters. -/
def isAsciiAlphanumeric (b : Nat) : Bool :=
  (0x30 ≤ b && b ≤ 0x39) || (0x41 ≤ b && b ≤ 0x5A) || (0x61 ≤ b && b ≤ 0x7A)

/-- Parser::validate_identifier: every character of the name must be
alphanumeric (true on the empty string, as in the source). -/
def validate_identifier (tag_name : Str) : Bool :=
  tag_name.all isAsciiAlphanumeric

/-- Rust char::is_whitespace on ASCII-range bytes: horizontal tab, line feed,
vertical tab, form feed, carriage return (0x09 to 0x0D) and space (0x20).
This is what str::trim removes at both ends. -/
def is_rust_whitespace (b : Nat) : Bool :=
  (0x09 ≤ b && b ≤ 0x0D) || b = 0x20

/-- Rust str::trim: drop leading and trailing whitespace characters, leaving
the interior untouched. -/
def rust_trim (s : Str) : Str :=
  ((s.dropWhile is_rust_whitespace).reverse.dropWhile is_rust_whitespace).reverse

/-- Parser::validate_attribute_value.  The source reads chars[0] and
chars[value.len() - 1]; on the empty string the first read indexes out of
bounds and panics, modeled by none.  Otherwise it returns whether both the
first and the last byte are double quotes. -/
def validate_attribute_value (value : Str) : Option Bool :=
  match value.head?, value.getLast? with
  | some h, some l => some (h == QUOTE && l == QUOTE)
  | _, _ => none

/-- Parser::strip_attribute_value_quotes: the slice chars[1..len-1], i.e. the
value without its first and last byte. -/
def strip_attribute_value_quotes (value : Str) : Str :=
  (value.drop 1).dropLast

/-- Parser::parse_attribute_section: split the section at the first equals
sign; with no equals sign the whole section is a key with empty value;
otherwise validate the key as an identifier, require the value to be wrapped
in double quotes, and strip the quotes.  When the value has length one (a
lone double quote passes the validation) the source slice chars[1..0] panics;
likewise validation of an empty value panics. -/
def parse_attribute_section (sect : Str) : RResult (Str × Str) :=
  match splitOnce EQUALS_SIGN sect with
  | some (key, value) =>
    if validate_identifier key then
      match validate_attribute_value value with
      | none => .panics
      | some false => .err (.InvalidAttributeValue value)
      | some true =>
        if value.length < 2 then .panics
        else .ok (key, strip_attribute_value_quotes value)
    else .err (.InvalidIdentifier key)
  | none => .ok (sect, [])

/-- The loop body of Parser::parse_attributes: parse each section in order and
insert it into the map only when the key is not already present (first
occurrence wins, later duplicates silently dropped). -/
def parse_attributes_go : List Str → List (Str × Str) → RResult (List (Str × Str))
  | [], acc => .ok acc
  | s :: ss, acc =>
    match parse_attribute_section s with
    | .ok (key, value) =>
      if acc.any (fun p => p.1 == key) then parse_attributes_go ss acc
      else parse_attributes_go ss (acc ++ [(key, value)])
    | .err e => .err e
    | .panics => .panics
    | .nofuel => .nofuel

/-- Parser::parse_attributes: split the attribute string on single spaces and
fold the sections into the attribute map. -/
def parse_attributes (attributes_string : Str) : RResult (List (Str × Str)) :=
  parse_attributes_go (splitAll WHITESPACE attributes_string) []

/-- Parser from parser.rs: the immutable input buffer and the cursor. -/
structure Parser where
  input : Str
  position : Nat
deriving DecidableEq

/-- Parser::eof: the cursor is at or past the end of the buffer. -/
def Parser.eof (p : Parser) : Bool :=
  p.input.length ≤ p.position

/-- Parser::next_char: the byte after the cursor, or a Generic error when that
index is out of range (the bound is checked before reading, so this never
panics). -/
def Parser.next_char (p : Parser) : RResult Nat :=
  if h : p.position + 1 < p.input.length then .ok (p.input.get ⟨p.position + 1, h⟩)
  else .err (.Generic p.position)

/-- Count of consecutive ASCII space bytes at the head of a byte list. -/
def count_leading_spaces : Str → Nat
  | [] => 0
  | b :: rest => if b = WHITESPACE then count_leading_spaces rest + 1 else 0

/-- Parser::skip_whitespaces: advance the cursor over consecutive ASCII space
bytes (0x20 only), stopping at end of input.  This is the net effect of the
recursive skip in the source. -/
def Parser.skip_whitespaces (p : Parser) : Parser :=
  { p with position := p.position + count_leading_spaces (p.input.drop p.position) }

/-- The loop of Parser::get_text_content, running over the remaining input:
consume bytes up to the next opening angle bracket (or end of input), failing
with UnexpectedToken when a bare closing angle bracket is met first.  Returns
the consumed bytes and the new cursor position. -/
def get_text_content_go : Str → Nat → RResult (Str × Nat)
  | [], pos => .ok ([], pos)
  | b :: rest, pos =>
    if b = LESS_THAN then .ok ([], pos)
    else if b = GREATER_THAN then .err (.UnexpectedToken pos [b])
    else
      match get_text_content_go rest (pos + 1) with
      | .ok (content, endPos) => .ok (b :: content, endPos)
      | .err e => .err e
      | .panics => .panics
      | .nofuel => .nofuel

/-- Parser::get_text_content: read a text run with get_text_content_go and
thread the cursor. -/
def Parser.get_text_content (p : Parser) : RResult (Str × Parser) :=
  match get_text_content_go (p.input.drop p.position) p.position with
  | .ok (content, endPos) => .ok (content, ⟨p.input, endPos⟩)
  | .err e => .err e
  | .panics => .panics
  | .nofuel => .nofuel

/-- Parser::get_tag_data: consume the raw tag interior up to the next closing
angle bracket.  The source then calls current_char(), which indexes the buffer
without a bound check: when the loop stopped because input was exhausted this
read is out of bounds and panics (so the PrematureEndOfFile return below it is
unreachable, but it is kept to mirror the source).  On success the interior is
split at the first space into tag name and attribute string, the tag name is
validated, and the attributes are parsed. -/
def Parser.get_tag_data (p : Parser) : RResult ((Str × List (Str × Str)) × Parser) :=
  let tag := (p.input.drop p.position).takeWhile (fun b => b != GREATER_THAN)
  let pos2 := p.position + tag.length
  match p.input[pos2]? with
  | none => .panics
  | some b =>
    if b ≠ GREATER_THAN then .err (.PrematureEndOfFile pos2)
    else
      let p2 : Parser := ⟨p.input, pos2 + 1⟩
      match splitOnce WHITESPACE tag with
      | some (tag_name, attributes_string) =>
        if validate_identifier tag_name then
          match parse_attributes attributes_string with
          | .ok attrs => .ok ((tag_name, attrs), p2)
          | .err e => .err e
          | .panics => .panics
          | .nofuel => .nofuel
        else .err (.InvalidIdentifier tag)
      | none =>
        if validate_identifier tag then .ok ((tag, []), p2)
        else .err (.InvalidIdentifier tag)

/-- Parser::get_element_content, fueled: the while loop over the remaining
input.  On an opening angle bracket, peek the next byte; a slash means a
closing tag, whose name must equal the open element's tag name (note the
source builds the mismatch error from current_char(), an unchecked read that
panics when the closing tag ends exactly at end of input); otherwise recurse
to build a child element.  On a space, skip spaces.  Otherwise read a text
run, trim it, and append a text node.  Exhausting the input without the
matching closing tag yields PrematureEndOfFile. -/
def Parser.get_element_content : Nat → Str → Parser → RResult (List Node × Parser)
  | 0, _, _ => .nofuel
  | fuel + 1, root_tag, p =>
    match p.input[p.position]? with
    | none => .err (.PrematureEndOfFile p.position)
    | some c =>
      if c = LESS_THAN then
        match p.next_char with
        | .err e => .err e
        | .panics => .panics
        | .nofuel => .nofuel
        | .ok next_character =>
          let pAfter : Parser :=
            ⟨p.input, if next_character = SLASH then p.position + 2 else p.position + 1⟩
          match pAfter.get_tag_data with
          | .err e => .err e
          | .panics => .panics
          | .nofuel => .nofuel
          | .ok ((tag_name, attributes), p2) =>
            if next_character = SLASH then
              if tag_name ≠ root_tag then
                match p2.input[p2.position]? with
                | none => .panics
                | some f => .err (.UnexpectedToken p2.position [f])
              else .ok ([], p2)
            else
              match Parser.get_element_content fuel tag_name p2 with
              | .err e => .err e
              | .panics => .panics
              | .nofuel => .nofuel
              | .ok (children, p3) =>
                match Parser.get_element_content fuel root_tag p3 with
                | .err e => .err e
                | .panics => .panics
                | .nofuel => .nofuel
                | .ok (rest, p4) =>
                  .ok (.Element tag_name attributes children :: rest, p4)
      else if c = WHITESPACE then
        Parser.get_element_content fuel root_tag p.skip_whitespaces
      else
        match p.get_text_content with
        | .err e => .err e
        | .panics => .panics
        | .nofuel => .nofuel
        | .ok (content, p2) =>
          match Parser.get_element_content fuel root_tag p2 with
          | .err e => .err e
          | .panics => .panics
          | .nofuel => .nofuel
          | .ok (rest, p3) => .ok (.Text (rust_trim content) :: rest, p3)

/-- Parser::parse: read the byte at the cursor with an unchecked index (on
empty input this indexing panics); require it to be an opening angle bracket,
read the root tag, then build the root element's content.  The fuel passed to
the builder exceeds the input length, which bounds the builder's recursion
depth because the cursor strictly advances at every recursive call. -/
def Parser.parse (p : Parser) : RResult Node :=
  match p.input[p.position]? with
  | none => .panics
  | some current_char =>
    if current_char ≠ LESS_THAN then .err (.UnexpectedToken p.position [current_char])
    else
      let p1 : Parser := ⟨p.input, p.position + 1⟩
      match p1.get_tag_data with
      | .err e => .err e
      | .panics => .panics
      | .nofuel => .nofuel
      | .ok ((tag_name, attributes), p2) =>
        match Parser.get_element_content (p.input.length + 1) tag_name p2 with
        | .err e => .err e
        | .panics => .panics
        | .nofuel => .nofuel
        | .ok (children, _) => .ok (.Element tag_name attributes children)

/-- Parser::new followed by Parser::parse: run the parser on an input buffer
from position zero. -/
def parseInput (input : Str) : RResult Node :=
  Parser.parse ⟨input, 0⟩

/-- The maximal text run starting at a cursor position: the bytes before the
next opening angle bracket (or to the end of input), exactly what the text
loop of the source scans. -/
def textSpan (input : Str) (pos : Nat) : Str :=
  (input.drop pos).takeWhile (fun b => b != LESS_THAN)

/-- Modelled from the spec claim wording only (not from the source): trimming
that removes nothing but leading and trailing ASCII space (0x20) bytes, the
transformation claim C2 attributes to text-node contents.  The source instead
applies Rust str::trim. -/
def trim_ascii_space_only (s : Str) : Str :=
  ((s.dropWhile (fun b => b == WHITESPACE)).reverse.dropWhile
    (fun b => b == WHITESPACE)).reverse

/-- A panic outcome is distinct from every returned parser error. -/
theorem panics_ne_err {α : Type} (e : ParserError) :
    (RResult.panics : RResult α) ≠ RResult.err e := by
  intro h
  exact RResult.noConfusion h

/-- The text loop returns exactly the bytes before the next opening angle
bracket, verbatim, when no closing angle bracket occurs among them, leaving
the cursor on the opening angle bracket (or at end of input). -/
theorem get_text_content_go_eq (l : Str) :
    ∀ pos : Nat, GREATER_THAN ∉ l.takeWhile (fun b => b != LESS_THAN) →
      get_text_content_go l pos =
        .ok (l.takeWhile (fun b => b != LESS_THAN),
             pos + (l.takeWhile (fun b => b != LESS_THAN)).length) := by
  induction l with
  | nil =>
    intro pos _
    simp [get_text_content_go]
  | cons b rest ih =>
    intro pos h
    by_cases hb : b = LESS_THAN
    · subst hb
      simp [get_text_content_go, List.takeWhile_cons]
    · have htake : (b :: rest).takeWhile (fun x => x != LESS_THAN) =
          b :: rest.takeWhile (fun x => x != LESS_THAN) := by
        simp [List.takeWhile_cons, hb]
      rw [htake] at h
      have hbgt : b ≠ GREATER_THAN := by
        intro hr
        exact h (by rw [hr]; exact List.mem_cons_self _ _)
      have hrest : GREATER_THAN ∉ rest.takeWhile (fun x => x != LESS_THAN) :=
        fun hm => h (List.mem_cons_of_mem _ hm)
      rw [htake]
      simp only [get_text_content_go, if_neg hb, if_neg hbgt, ih (pos + 1) hrest,
        List.length_cons]
      have harith : pos + 1 + (rest.takeWhile (fun x => x != LESS_THAN)).length =
          pos + ((rest.takeWhile (fun x => x != LESS_THAN)).length + 1) := by
        omega
      rw [harith]

/-- The text loop fails with UnexpectedToken at the closing angle bracket when
the bytes before it contain neither angle bracket. -/
theorem get_text_content_go_gt (pre : Str) :
    ∀ (pos : Nat) (suf : Str), LESS_THAN ∉ pre → GREATER_THAN ∉ pre →
      get_text_content_go (pre ++ GREATER_THAN :: suf) pos =
        .err (.UnexpectedToken (pos + pre.length) [GREATER_THAN]) := by
  induction pre with
  | nil =>
    intro pos suf _ _
    simp [get_text_content_go, GREATER_THAN, LESS_THAN]
  | cons b bs ih =>
    intro pos suf hlt hgt
    have hblt : b ≠ LESS_THAN := fun hr => hlt (by rw [hr]; exact List.mem_cons_self _ _)
    have hbgt : b ≠ GREATER_THAN := fun hr => hgt (by rw [hr]; exact List.mem_cons_self _ _)
    have hlt2 : LESS_THAN ∉ bs := fun hm => hlt (List.mem_cons_of_mem _ hm)
    have hgt2 : GREATER_THAN ∉ bs := fun hm => hgt (List.mem_cons_of_mem _ hm)
    simp only [List.cons_append, get_text_content_go, if_neg hblt, if_neg hbgt,
      List.append_eq, ih (pos + 1) suf hlt2 hgt2, List.length_cons]
    have harith : pos + 1 + bs.length = pos + (bs.length + 1) := by omega
    rw [harith]

/-- rust_trim splits its argument into a whitespace prefix, the trimmed core
kept verbatim, and a whitespace suffix. -/
theorem rust_trim_decomp (s : Str) :
    ∃ a b, s = a ++ rust_trim s ++ b ∧
      (∀ x ∈ a, is_rust_whitespace x = true) ∧
      (∀ x ∈ b, is_rust_whitespace x = true) := by
  refine ⟨s.takeWhile is_rust_whitespace,
    ((s.dropWhile is_rust_whitespace).reverse.takeWhile is_rust_whitespace).reverse,
    ?_, ?_, ?_⟩
  · have h2 : s.dropWhile is_rust_whitespace =
        rust_trim s ++
          ((s.dropWhile is_rust_whitespace).reverse.takeWhile is_rust_whitespace).reverse := by
      rw [rust_trim]
      conv_lhs =>
        rw [← List.reverse_reverse (s.dropWhile is_rust_whitespace),
          ← List.takeWhile_append_dropWhile is_rust_whitespace
            (s.dropWhile is_rust_whitespace).reverse]
      rw [List.reverse_append]
    conv_lhs =>
      rw [← List.takeWhile_append_dropWhile is_rust_whitespace s, h2]
    rw [List.append_assoc]
  · intro x hx
    exact List.mem_takeWhile_imp hx
  · intro x hx
    rw [List.mem_reverse] at hx
    exact List.mem_takeWhile_imp hx

/-- splitOnce finds the separator exactly at the split point we appended when
the left part avoids the separator. -/
theorem splitOnce_append (sep : Nat) (l r : Str) (h : ∀ b ∈ l, b ≠ sep) :
    splitOnce sep (l ++ sep :: r) = some (l, r) := by
  induction l with
  | nil =>
    simp [splitOnce]
  | cons b bs ih =>
    have hb : b ≠ sep := h b (List.mem_cons_self _ _)
    have hrest := ih fun x hx => h x (List.mem_cons_of_mem _ hx)
    simp only [List.cons_append, splitOnce, if_neg hb, List.append_eq, hrest]

/-- An ASCII alphanumeric byte is never the equals sign. -/
theorem isAsciiAlphanumeric_ne_equals {b : Nat} (h : isAsciiAlphanumeric b = true) :
    b ≠ EQUALS_SIGN := by
  intro hb
  subst hb
  exact absurd h (by decide)

/-- A validated identifier contains no equals sign. -/
theorem validate_identifier_no_equals {key : Str} (h : validate_identifier key = true) :
    ∀ b ∈ key, b ≠ EQUALS_SIGN := by
  intro b hb
  rw [validate_identifier, List.all_eq_true] at h
  exact isAsciiAlphanumeric_ne_equals (h b hb)

/-- Attribute-value validation returns false on a non-empty value that is not
both opened and closed by a double quote. -/
theorem validate_attribute_value_fails (value : Str) (hne : value ≠ [])
    (hq : ¬(value.head? = some QUOTE ∧ value.getLast? = some QUOTE)) :
    validate_attribute_value value = some false := by
  match value, hne with
  | v :: vs, _ =>
    cases hgl : (v :: vs).getLast? with
    | none =>
      exact absurd hgl (by simp)
    | some l =>
      rw [validate_attribute_value, List.head?_cons, hgl]
      by_cases hv : v = QUOTE
      · by_cases hl : l = QUOTE
        · exact absurd ⟨by rw [List.head?_cons, hv], by rw [hgl, hl]⟩ hq
        · simp [hl]
      · simp [hv]

/-- parse_attribute_section rejects a non-empty value that is not wrapped in
double quotes with InvalidAttributeValue, when the key is a valid identifier. -/
theorem parse_attribute_section_unquoted (key value : Str)
    (hkey : validate_identifier key = true) (hne : value ≠ [])
    (hq : ¬(value.head? = some QUOTE ∧ value.getLast? = some QUOTE)) :
    parse_attribute_section (key ++ EQUALS_SIGN :: value) =
      .err (.InvalidAttributeValue value) := by
  simp only [parse_attribute_section,
    splitOnce_append EQUALS_SIGN key value (validate_identifier_no_equals hkey),
    hkey, if_true, validate_attribute_value_fails value hne hq]

/-- parse_attribute_section accepts a value wrapped in a pair of double quotes
and stores it with the quotes stripped, when the key is a valid identifier. -/
theorem parse_attribute_section_quoted (key inner : Str)
    (hkey : validate_identifier key = true) :
    parse_attribute_section (key ++ EQUALS_SIGN :: (QUOTE :: (inner ++ [QUOTE]))) =
      .ok (key, inner) := by
  have hlast : (QUOTE :: (inner ++ [QUOTE])).getLast? = some QUOTE := by
    rw [← List.cons_append, List.getLast?_concat]
  have hval : validate_attribute_value (QUOTE :: (inner ++ [QUOTE])) = some true := by
    rw [validate_attribute_value, List.head?_cons, hlast]
    simp
  have hlen : ¬((QUOTE :: (inner ++ [QUOTE])).length < 2) := by
    simp only [List.length_cons, List.length_append, List.length_cons, List.length_nil]
    omega
  have hstrip : strip_attribute_value_quotes (QUOTE :: (inner ++ [QUOTE])) = inner := by
    rw [strip_attribute_value_quotes]
    simp
  simp only [parse_attribute_section,
    splitOnce_append EQUALS_SIGN key _ (validate_identifier_no_equals hkey),
    hkey, if_true, hval, hlen, if_false, hstrip]

/-- Looking a key up in an association list is unchanged by appending entries
when the key is already bound. -/
theorem lookup_append_left (k : Str) (l₁ l₂ : List (Str × Str))
    (h : (List.lookup k l₁).isSome = true) :
    List.lookup k (l₁ ++ l₂) = List.lookup k l₁ := by
  induction l₁ with
  | nil => simp at h
  | cons p ps ih =>
    obtain ⟨a, b⟩ := p
    rw [List.cons_append, List.lookup_cons, List.lookup_cons]
    rw [List.lookup_cons] at h
    cases hk : (k == a) with
    | true =>
      rfl
    | false =>
      rw [hk] at h
      exact ih h

/-- A key reported present by the containment test of the source is bound in
the association list. -/
theorem lookup_isSome_of_any (k : Str) (l : List (Str × Str))
    (h : l.any (fun p => p.1 == k) = true) :
    (List.lookup k l).isSome = true := by
  induction l with
  | nil => simp at h
  | cons p ps ih =>
    obtain ⟨a, b⟩ := p
    rw [List.lookup_cons]
    cases hk : (k == a) with
    | true =>
      rfl
    | false =>
      apply ih
      rw [List.any_cons] at h
      have hak : (a == k) = false := by
        rw [beq_eq_false_iff_ne] at hk ⊢
        exact fun hcontra => hk hcontra.symm
      simpa [hak] using h

/-- Once a key is bound in the accumulated attribute map, the remaining
sections never change its binding: the loop skips sections whose key is
already present (first occurrence wins). -/
theorem parse_attributes_go_lookup (ss : List Str) :
    ∀ (acc res : List (Str × Str)) (k : Str),
      acc.any (fun p => p.1 == k) = true →
      parse_attributes_go ss acc = .ok res →
      List.lookup k res = List.lookup k acc := by
  induction ss with
  | nil =>
    intro acc res k _ hrun
    simp only [parse_attributes_go, RResult.ok.injEq] at hrun
    rw [hrun]
  | cons s ss ih =>
    intro acc res k hany hrun
    cases hsec : parse_attribute_section s with
    | ok kv =>
      obtain ⟨k2, v2⟩ := kv
      simp only [parse_attributes_go, hsec] at hrun
      by_cases hmem : acc.any (fun p => p.1 == k2) = true
      · rw [if_pos hmem] at hrun
        exact ih acc res k hany hrun
      · rw [if_neg hmem] at hrun
        have hany2 : (acc ++ [(k2, v2)]).any (fun p => p.1 == k) = true := by
          rw [List.any_append, hany, Bool.true_or]
        rw [ih _ res k hany2 hrun]
        exact lookup_append_left k acc [(k2, v2)] (lookup_isSome_of_any k acc hany)
    | err e =>
      simp only [parse_attributes_go, hsec] at hrun
      exact RResult.noConfusion hrun
    | panics =>
      simp only [parse_attributes_go, hsec] at hrun
      exact RResult.noConfusion hrun
    | nofuel =>
      simp only [parse_attributes_go, hsec] at hrun
      exact RResult.noConfusion hrun

/-- C1: the claim says an input whose tag interior is never terminated, such as
the four bytes of an opening div tag with no closing angle bracket, makes parse
return PrematureEndOfFile.  The code instead panics: after the interior loop
stops at end of input, get_tag_data reads current_char() without a bound
check, indexing one past the buffer, so no ParserError value is returned (the
PrematureEndOfFile return below that read, matching the source comment about
reaching end of file, is unreachable). -/
theorem unterminated_tag_interior_panics :
    parseInput [60, 100, 105, 118] = .panics ∧
    ∀ e : ParserError, parseInput [60, 100, 105, 118] ≠ .err e :=
  ⟨rfl, fun e => panics_ne_err e⟩

/-- C2 counterexample: on the well-formed input of a div element whose text is
a horizontal tab followed by the letter a, the parser produces the text
content consisting of the letter a alone, while the claimed trimming that
removes only ASCII space bytes would keep the leading tab; so a Text node's
content does not always equal the delimited substring with only ASCII spaces
removed. -/
theorem text_only_space_trim_refuted :
    parseInput [60, 100, 105, 118, 62, 9, 97, 60, 47, 100, 105, 118, 62] =
      .ok (.Element [100, 105, 118] [] [.Text [97]]) ∧
    trim_ascii_space_only [9, 97] = [9, 97] ∧
    ([97] : Str) ≠ [9, 97] :=
  ⟨rfl, rfl, by decide⟩

/-- C2 amended: a text run is read verbatim (every byte before the next
opening angle bracket, provided no closing angle bracket occurs among them),
and the stored Text content is the run with leading and trailing whitespace in
the sense of Rust str::trim removed, tabs and newlines included, while the
interior of the run is preserved verbatim; concretely, a div whose text is tab,
letter a, tab, letter b, tab keeps the inner tab and loses both outer tabs. -/
theorem text_run_verbatim_trimmed (input : Str) (pos : Nat)
    (h : GREATER_THAN ∉ textSpan input pos) :
    Parser.get_text_content ⟨input, pos⟩ =
      .ok (textSpan input pos, ⟨input, pos + (textSpan input pos).length⟩) ∧
    (∃ a b, textSpan input pos = a ++ rust_trim (textSpan input pos) ++ b ∧
      (∀ x ∈ a, is_rust_whitespace x = true) ∧
      (∀ x ∈ b, is_rust_whitespace x = true)) ∧
    parseInput [60, 100, 105, 118, 62, 9, 97, 9, 98, 9, 60, 47, 100, 105, 118, 62] =
      .ok (.Element [100, 105, 118] [] [.Text [97, 9, 98]]) := by
  refine ⟨?_, rust_trim_decomp _, rfl⟩
  rw [textSpan] at h
  simp only [Parser.get_text_content, textSpan]
  rw [get_text_content_go_eq _ pos h]

/-- Witness for the amended C2 theorem at a concrete one-byte text run. -/
theorem text_run_verbatim_trimmed_witness :
    Parser.get_text_content ⟨[97], 0⟩ = .ok ([97], ⟨[97], 1⟩) :=
  (text_run_verbatim_trimmed [97] 0 (by decide)).1

/-- C3: parse of a div element containing the word content yields an Element
node with tag name div, an empty attribute map, and one Text child holding the
word content. -/
theorem parse_div_content_result :
    parseInput [60, 100, 105, 118, 62, 99, 111, 110, 116, 101, 110, 116,
        60, 47, 100, 105, 118, 62] =
      .ok (.Element [100, 105, 118] [] [.Text [99, 111, 110, 116, 101, 110, 116]]) :=
  rfl

/-- C4: when a key is already bound in the attribute map, later sections never
change the binding (the loop silently drops later duplicates), and parse of an
anchor tag carrying the href attribute twice keeps only the first value. -/
theorem attribute_first_occurrence_wins :
    (∀ (ss : List Str) (acc res : List (Str × Str)) (k : Str),
        acc.any (fun p => p.1 == k) = true →
        parse_attributes_go ss acc = .ok res →
        List.lookup k res = List.lookup k acc) ∧
    parseInput [60, 97, 32, 104, 114, 101, 102, 61, 34, 49, 34, 32,
        104, 114, 101, 102, 61, 34, 50, 34, 62, 60, 47, 97, 62] =
      .ok (.Element [97] [([104, 114, 101, 102], [49])] []) :=
  ⟨parse_attributes_go_lookup, rfl⟩

/-- Witness for C4: a map already binding href keeps that binding after the
loop processes a duplicate href section. -/
theorem attribute_first_occurrence_wins_witness :
    List.lookup [104, 114, 101, 102] [([104, 114, 101, 102], [49])] = some [49] := by
  have h := attribute_first_occurrence_wins.1 [[104, 114, 101, 102, 61, 34, 50, 34]]
    [([104, 114, 101, 102], [49])] [([104, 114, 101, 102], [49])] [104, 114, 101, 102]
    (by decide) (by decide)
  exact h.trans (by decide)

/-- C5: the claim says a closing tag whose name differs from the open
element's name makes parse return UnexpectedToken, in particular on the input
of a div closed by a span tag.  The code clearly intends that error (the
mismatch branch constructs exactly it) but builds the found-token text from an
unchecked current_char() read: at the claimed example the closing tag ends the
input, the read is out of bounds, and the code panics; with any byte after the
closing tag the UnexpectedToken error is returned as claimed. -/
theorem mismatched_closing_tag_outcome :
    parseInput [60, 100, 105, 118, 62, 120, 60, 47, 115, 112, 97, 110, 62] = .panics ∧
    parseInput [60, 100, 105, 118, 62, 120, 60, 47, 115, 112, 97, 110, 62, 32] =
      .err (.UnexpectedToken 13 [32]) :=
  ⟨rfl, rfl⟩

/-- C6: an attribute section whose key is a valid identifier and whose
non-empty value is not both opened and closed by a double quote is rejected
with InvalidAttributeValue; a value wrapped in a pair of double quotes is
stored with the quotes stripped; concretely, an unquoted href value makes
parse fail with InvalidAttributeValue and a quoted one is stored stripped. -/
theorem unquoted_attribute_value_rejected :
    (∀ key value : Str, validate_identifier key = true → value ≠ [] →
        ¬(value.head? = some QUOTE ∧ value.getLast? = some QUOTE) →
        parse_attribute_section (key ++ EQUALS_SIGN :: value) =
          .err (.InvalidAttributeValue value)) ∧
    (∀ key inner : Str, validate_identifier key = true →
        parse_attribute_section (key ++ EQUALS_SIGN :: (QUOTE :: (inner ++ [QUOTE]))) =
          .ok (key, inner)) ∧
    parseInput [60, 97, 32, 104, 114, 101, 102, 61, 120, 62, 60, 47, 97, 62] =
      .err (.InvalidAttributeValue [120]) ∧
    parseInput [60, 97, 32, 104, 114, 101, 102, 61, 34, 120, 34, 62, 121, 60, 47, 97, 62] =
      .ok (.Element [97] [([104, 114, 101, 102], [120])] [.Text [121]]) :=
  ⟨parse_attribute_section_unquoted, parse_attribute_section_quoted, rfl, rfl⟩

/-- Witness for C6 at the concrete section of a one-letter key with an
unquoted one-letter value. -/
theorem unquoted_attribute_value_rejected_witness :
    parse_attribute_section ([107] ++ EQUALS_SIGN :: [120]) =
      .err (.InvalidAttributeValue [120]) :=
  unquoted_attribute_value_rejected.1 [107] [120] (by decide) (by decide) (by decide)

/-- C7: every non-empty input whose first byte is not an opening angle bracket
is rejected by parse with UnexpectedToken at position zero. -/
theorem root_text_rejected (b : Nat) (rest : Str) (h : b ≠ LESS_THAN) :
    parseInput (b :: rest) = .err (.UnexpectedToken 0 [b]) := by
  simp [parseInput, Parser.parse, h]

/-- Witness for C7 at the one-byte input consisting of the letter x. -/
theorem root_text_rejected_witness :
    parseInput [120] = .err (.UnexpectedToken 0 [120]) :=
  root_text_rejected 120 [] (by decide)

/-- C8: while reading a text run, a bare closing angle bracket reached before
any opening angle bracket makes the scanner fail with UnexpectedToken at that
byte instead of including it in the content. -/
theorem bare_gt_in_text_is_error (input : Str) (pos : Nat) (pre suf : Str)
    (hsplit : input.drop pos = pre ++ GREATER_THAN :: suf)
    (hlt : LESS_THAN ∉ pre) (hgt : GREATER_THAN ∉ pre) :
    Parser.get_text_content ⟨input, pos⟩ =
      .err (.UnexpectedToken (pos + pre.length) [GREATER_THAN]) := by
  simp only [Parser.get_text_content]
  rw [hsplit, get_text_content_go_gt pre pos suf hlt hgt]

/-- Witness for C8 at the one-byte input consisting of a closing angle
bracket. -/
theorem bare_gt_in_text_is_error_witness :
    Parser.get_text_content ⟨[62], 0⟩ = .err (.UnexpectedToken 0 [62]) :=
  bare_gt_in_text_is_error [62] 0 [] [] (by decide) (by decide) (by decide)

/-- C9: parse of the empty input returns no ParserError value: the first
current_char() read indexes byte zero of the empty buffer and panics. -/
theorem parse_empty_input_panics :
    parseInput [] = .panics ∧ ∀ e : ParserError, parseInput [] ≠ .err e :=
  ⟨rfl, fun e => panics_ne_err e⟩

/-- C10: an attribute section whose equals sign is followed by nothing makes
the validation index the first byte of an empty value, a panic, not a typed
InvalidAttributeValue error; so parse of an anchor tag with an empty href
value panics. -/
theorem empty_attribute_value_panics :
    parseInput [60, 97, 32, 104, 114, 101, 102, 61, 62, 60, 47, 97, 62] = .panics ∧
    validate_attribute_value [] = none ∧
    ∀ e : ParserError,
      parseInput [60, 97, 32, 104, 114, 101, 102, 61, 62, 60, 47, 97, 62] ≠ .err e :=
  ⟨rfl, rfl, fun e => panics_ne_err e⟩

end RustBrowser
